import Mathlib

/-!
Shallow embedding of the R-PI USB file-management core
(`utils/usb_manager.py` and `utils/file_operations.py`).

External effects (the OS filesystem, `subprocess` invocations of
`lsblk`/`mount`/`umount`, `shutil.disk_usage`, `/sys/block` reads, the
`werkzeug.secure_filename` sanitizer) are modelled as an explicit
environment record; the two managers' mutable `self` fields become an
explicit state record threaded through each operation.  Machine-level
floating point is modelled by exact rationals.
-/

/-! ### Python path primitives -/

/-- `s.startswith('/')`. -/
def strStartsSlash (s : String) : Bool :=
  match s.data with
  | c :: _ => c = '/'
  | [] => false

/-- `s.endswith('/')`. -/
def strEndsSlash (s : String) : Bool :=
  match s.data.getLast? with
  | some c => c = '/'
  | none => false

/-- `os.path.join(a, b)` for POSIX paths: an absolute second component
replaces the first, otherwise the two are joined with a single `/`. -/
def osPathJoin (a b : String) : String :=
  if strStartsSlash b then b
  else if a = "" || strEndsSlash a then a ++ b
  else a ++ "/" ++ b

/-- `str.split('/')` on the character list of a string. -/
def splitSlash : List Char → List (List Char)
  | [] => [[]]
  | c :: rest =>
    if c = '/' then [] :: splitSlash rest
    else
      match splitSlash rest with
      | [] => [[c]]
      | h :: t => (c :: h) :: t

/-- `str.rfind(c)`: index of the last occurrence, `-1` if absent. -/
def rfindChar (c : Char) (cs : List Char) : Int :=
  match cs.reverse.findIdx? (· = c) with
  | none => -1
  | some j => ((cs.length - 1 - j : Nat) : Int)

/-- `os.path.splitext`: split off the extension at the last dot of the
basename, unless every character of the basename before that dot is
itself a dot. -/
def splitext (p : String) : String × String :=
  let cs := p.data
  let sepIdx := rfindChar '/' cs
  let dotIdx := rfindChar '.' cs
  if dotIdx > sepIdx then
    let start := (sepIdx + 1).toNat
    let d := dotIdx.toNat
    if ((cs.drop start).take (d - start)).any (fun c => c ≠ '.') then
      (⟨cs.take d⟩, ⟨cs.drop d⟩)
    else (p, "")
  else (p, "")

/-- `str.lower()` as a per-character map (ASCII case folding). -/
def strLower (s : String) : String :=
  ⟨s.data.map Char.toLower⟩

/-- Normalize the segments of a POSIX path: drop empty and `.` segments,
let `..` pop the previous segment (staying at the root when none). -/
def normSegs : List String → List String → List String
  | [], acc => acc.reverse
  | s :: rest, acc =>
    if s = "" ∨ s = "." then normSegs rest acc
    else if s = ".." then
      match acc with
      | [] => normSegs rest []
      | _ :: t => normSegs rest t
    else normSegs rest (s :: acc)

/-- Normalized segment list of an absolute path. -/
def normalizeAbs (p : String) : List String :=
  normSegs ((splitSlash p.data).map (fun l => (⟨l⟩ : String))) []

/-- `p` stays inside the subtree rooted at `root` once `..` segments are
resolved. -/
def isWithinB (root p : String) : Bool :=
  (normalizeAbs root).isPrefixOf (normalizeAbs p)

/-! ### Exact-arithmetic model of Python rounding -/

/-- Round-half-even to an integer, the rounding used by Python `round`. -/
def roundHalfEven (x : ℚ) : ℤ :=
  let f := ⌊x⌋
  if x - f < 1/2 then f
  else if x - f > 1/2 then f + 1
  else if f % 2 = 0 then f else f + 1

/-- `round(x, 1)`: round to one decimal place. -/
def round1 (x : ℚ) : ℚ :=
  (roundHalfEven (10 * x) : ℚ) / 10

/-! ### Data model of the USB manager -/

/-- One entry of `lsblk -J` output, with `None`-able columns optional
(`type` is spelled `dtype`: `type` is a Lean keyword). -/
structure LsblkDev where
  name : String
  dtype : String
  size : Option String
  mountpoint : Option String
  label : Option String
  fstype : Option String
deriving DecidableEq

/-- The dictionary `get_available_devices` reports per partition. -/
structure DeviceInfo where
  name : String
  size : String
  label : String
  mountpoint : String
  dtype : String
  fstype : String
deriving DecidableEq

/-- The mutable fields of `USBManager`, plus the set of mount-point
directories this manager has created on the host (for `os.makedirs` /
`os.rmdir` bookkeeping). -/
structure USBState where
  mount_point : Option String
  mounted_device : Option String
  dirs : List String
deriving DecidableEq

/-- The external world as seen by `USBManager`: filesystem predicates,
process id, and outcomes of the shelled-out `mount`/`umount`/`lsblk`
invocations. -/
structure Env where
  path_exists : String → Bool
  ismount : String → Bool
  pid : Nat
  mount_ret : Int
  mount_auto_ret : Int
  mount_auto_stderr : String
  umount_ret : Int
  umount_raises : Bool
  rmdir_ok : String → Bool
  removable : String → Bool
  lsblk_raises : Bool
  lsblk_ret : Int
  lsblk_devs : List LsblkDev
  fallback_devices : List DeviceInfo
  disk_usage : Option (Nat × Nat × Nat)

/-- Externally visible actions an operation performs, in order. -/
inductive Event where
  | umountCmd (mp : String)
  | rmdirTry (mp : String)
  | mkdirCmd (p : String)
  | mountCmd (dev mp : String)
  | mountAutoCmd (dev mp : String)
deriving DecidableEq

/-! ### USBManager operations -/

/-- `_is_removable_disk`: read the kernel removable flag for the disk. -/
def isRemovableDisk (env : Env) (d : LsblkDev) : Bool :=
  env.removable (d.name.replace "/dev/" "")

/-- `_is_usb_partition`: take the basename, truncate it at its first
digit character, prefix `/dev/`, and test membership in the removable
(USB) disk names. -/
def isUsbPartition (d : LsblkDev) (usb_disks : List String) : Bool :=
  let cs := d.name.data
  let base := if cs.contains '/' then (splitSlash cs).getLastD [] else cs
  let disk := base.takeWhile (fun c => !c.isDigit)
  usb_disks.contains ("/dev/" ++ (⟨disk⟩ : String))

/-- The removable-disk name set built in `get_available_devices`. -/
def usbDisksOf (env : Env) (devs : List LsblkDev) : List String :=
  (devs.filter (fun d => d.dtype = "disk" && isRemovableDisk env d)).map (·.name)

/-- The reported dictionary for one partition. -/
def mkDeviceInfo (d : LsblkDev) : DeviceInfo :=
  { name := d.name
    size := d.size.getD "Unknown"
    label := d.label.getD "No Label"
    mountpoint := d.mountpoint.getD ""
    dtype := d.dtype
    fstype := d.fstype.getD "" }

/-- `get_available_devices`: on an exception fall back to the pattern
scan; on a non-zero `lsblk` status report nothing; otherwise report the
partitions of removable disks. -/
def getAvailableDevices (env : Env) : List DeviceInfo :=
  if env.lsblk_raises then env.fallback_devices
  else if env.lsblk_ret ≠ 0 then []
  else
    let usb_disks := usbDisksOf env env.lsblk_devs
    (env.lsblk_devs.filter
        (fun d => d.dtype = "part" && isUsbPartition d usb_disks)).map mkDeviceInfo

/-- Claim-side definition, modelled from the specification words: the
parent-disk identifier obtained by stripping trailing numeric
partition-number characters from a device name. -/
def stripTrailingDigits (s : String) : String :=
  ⟨(s.data.reverse.dropWhile (·.isDigit)).reverse⟩

/-- Canonical Linux device-name shape `/dev/<stem><partition digits>`:
a nonempty stem free of digits and slashes, followed by a (possibly
empty) run of partition-number digits. -/
def canonicalDevName (s : String) : Prop :=
  ∃ w d : List Char, s.data = ("/dev/" : String).data ++ w ++ d ∧ w ≠ [] ∧
    (∀ c ∈ w, c.isDigit = false ∧ c ≠ '/') ∧ (∀ c ∈ d, c.isDigit = true)

/-- `unmount_device`.  Result: the returned Boolean (or the propagated
exception), the updated state, and the performed events.  A non-zero
`umount` status is only logged; `os.rmdir` errors are swallowed; the
session fields are cleared before returning.  Only an exception from
`subprocess.run` itself (modelled by `umount_raises`) propagates, in
which case the session is left untouched. -/
def unmountDevice (st : USBState) (env : Env) :
    Except String Bool × USBState × List Event :=
  match st.mount_point with
  | none => (.ok true, st, [])
  | some mp =>
    if env.umount_raises then
      (.error "unmount subprocess failed", st, [Event.umountCmd mp])
    else
      (.ok true,
       { mount_point := none
         mounted_device := none
         dirs := if env.rmdir_ok mp then st.dirs.erase mp else st.dirs },
       [Event.umountCmd mp, Event.rmdirTry mp])

/-- The process-unique mount directory
`os.path.join("/media/usb", "usb_" + str(os.getpid()))`. -/
def mountPointFor (env : Env) : String :=
  osPathJoin "/media/usb" ("usb_" ++ Nat.repr env.pid)

/-- `mount_device`: existence check, implicit unmount of a previous
session, `os.makedirs` of the fresh mount point, a plain `mount`
attempt, a `-t auto` retry, and an `os.path.ismount` verification. -/
def mountDevice (dev : String) (st : USBState) (env : Env) :
    Except String String × USBState × List Event :=
  if ¬ env.path_exists dev then
    (.error ("Device " ++ dev ++ " does not exist"), st, [])
  else
    let (r1, st1, ev1) :=
      if st.mount_point.isSome then unmountDevice st env else (.ok true, st, [])
    match r1 with
    | .error e => (.error e, st1, ev1)
    | .ok _ =>
      let mp := mountPointFor env
      let st2 := { st1 with dirs := if mp ∈ st1.dirs then st1.dirs else mp :: st1.dirs }
      if env.mount_ret = 0 then
        let evs := ev1 ++ [Event.mkdirCmd mp, Event.mountCmd dev mp]
        if env.ismount mp then
          (.ok mp, { st2 with mount_point := some mp, mounted_device := some dev }, evs)
        else (.error "Mount verification failed", st2, evs)
      else if env.mount_auto_ret = 0 then
        let evs := ev1 ++ [Event.mkdirCmd mp, Event.mountCmd dev mp, Event.mountAutoCmd dev mp]
        if env.ismount mp then
          (.ok mp, { st2 with mount_point := some mp, mounted_device := some dev }, evs)
        else (.error "Mount verification failed", st2, evs)
      else
        (.error ("Failed to mount device: " ++ env.mount_auto_stderr), st2,
         ev1 ++ [Event.mkdirCmd mp, Event.mountCmd dev mp, Event.mountAutoCmd dev mp])

/-- `get_status` return value; `usage_percent` is an exact rational. -/
structure Status where
  mounted : Bool
  device : Option String
  mount_point : Option String
  total_space : Nat
  used_space : Nat
  free_space : Nat
  usage_percent : ℚ
deriving DecidableEq

/-- The all-unmounted, zero-valued status dictionary. -/
def defaultStatus : Status :=
  { mounted := false, device := none, mount_point := none
    total_space := 0, used_space := 0, free_space := 0, usage_percent := 0 }

/-- `get_status`: keep the defaults unless a verified mount exists; the
`status.update` is skipped whole when `shutil.disk_usage` raises or the
usage ratio divides by zero, both caught by the broad `except`. -/
def getStatus (st : USBState) (env : Env) : Status :=
  match st.mount_point with
  | none => defaultStatus
  | some mp =>
    if ¬ env.ismount mp then defaultStatus
    else
      match env.disk_usage with
      | none => defaultStatus
      | some (total, used, free) =>
        if total = 0 then defaultStatus
        else
          { mounted := true
            device := st.mounted_device
            mount_point := some mp
            total_space := total
            used_space := used
            free_space := free
            usage_percent := round1 ((used : ℚ) / (total : ℚ) * 100) }

/-- `is_device_mounted`. -/
def isDeviceMounted (st : USBState) (env : Env) : Bool :=
  match st.mount_point with
  | none => false
  | some mp => env.ismount mp

/-- `get_mount_point`: re-verify liveness before trusting the cache. -/
def getMountPoint (st : USBState) (env : Env) : Option String :=
  if isDeviceMounted st env then st.mount_point else none

/-! ### FileOperations data model -/

/-- The external world as seen by `FileOperations`: the
`werkzeug.secure_filename` sanitizer and the per-path `os` metadata
oracles (directory listing, `os.path.isdir`, `os.stat` fields,
timestamp formatting).  The set of currently existing paths is passed
separately as a list, so that operations can update it. -/
structure FsEnv where
  secure_filename : String → String
  listdir : String → List String
  is_dir : String → Bool
  stat_ok : String → Bool
  stat_size : String → Nat
  stat_mtime_iso : String → String
  stat_ctime_iso : String → String
  stat_perm : String → String

/-- One listing entry (`type` is spelled `ftype`: `type` is a Lean
keyword). -/
structure FileInfo where
  name : String
  path : String
  is_directory : Bool
  size : Nat
  modified : String
  created : String
  permissions : String
  ftype : String
  icon : String
  human_size : String
deriving DecidableEq

/-- `_get_file_type`: `folder` for directories, otherwise `unknown`. -/
def getFileType (_filename : String) (is_directory : Bool) : String :=
  if is_directory then "folder" else "unknown"

/-- The extension-to-icon table of `_get_file_icon`. -/
def iconMap : List (String × String) :=
  [(".jpg", "image"), (".jpeg", "image"), (".png", "image"), (".gif", "image"),
   (".bmp", "image"), (".tiff", "image"), (".webp", "image"),
   (".pdf", "pdf"), (".doc", "word"), (".docx", "word"), (".txt", "text"),
   (".rtf", "text"), (".odt", "text"),
   (".xls", "excel"), (".xlsx", "excel"), (".csv", "table"), (".ods", "table"),
   (".ppt", "powerpoint"), (".pptx", "powerpoint"), (".odp", "presentation"),
   (".zip", "archive"), (".rar", "archive"), (".7z", "archive"),
   (".tar", "archive"), (".gz", "archive"),
   (".mp4", "video"), (".avi", "video"), (".mkv", "video"), (".mov", "video"),
   (".wmv", "video"), (".flv", "video"),
   (".mp3", "audio"), (".wav", "audio"), (".flac", "audio"), (".aac", "audio"),
   (".ogg", "audio"),
   (".py", "code"), (".js", "code"), (".html", "code"), (".css", "code"),
   (".json", "code"), (".xml", "code"), (".sql", "code")]

/-- `_get_file_icon`. -/
def getFileIcon (filename : String) (is_directory : Bool) : String :=
  if is_directory then "folder"
  else ((iconMap.lookup (splitext (strLower filename)).2).getD "file")

/-- The division loop of `_format_size` (each `/= 1024.0` is exact on
binary floats, so exact rationals model it faithfully).  The loop body
runs at most four times (`i < 4`), so fuel 4 is exact. -/
def formatSizeLoop : Nat → ℚ → Nat → ℚ × Nat
  | 0, q, i => (q, i)
  | f + 1, q, i =>
    if q ≥ 1024 ∧ i < 4 then formatSizeLoop f (q / 1024) (i + 1) else (q, i)

/-- Print a nonnegative rational with one decimal place (`"%.1f"`). -/
def fmt1 (q : ℚ) : String :=
  let n := (roundHalfEven (10 * q)).toNat
  Nat.repr (n / 10) ++ "." ++ Nat.repr (n % 10)

/-- `_format_size`. -/
def formatSize (size_bytes : Nat) : String :=
  if size_bytes = 0 then "0 B"
  else
    let (q, i) := formatSizeLoop 4 (size_bytes : ℚ) 0
    fmt1 q ++ " " ++ (["B", "KB", "MB", "GB", "TB"].getD i "")

/-- Lexicographic `≤` on code-point sequences, the comparison Python
uses for strings. -/
def charListLe : List Char → List Char → Bool
  | [], _ => true
  | _ :: _, [] => false
  | a :: as, b :: bs => if a = b then charListLe as bs else decide (a < b)

/-- The lowered code-point sequence of a name (sort key component). -/
def pyLower (s : String) : List Char :=
  s.data.map Char.toLower

/-- The sort key comparison of `list_files`:
`key=lambda x: (not x['is_directory'], x['name'].lower())` compared
lexicographically — directories (key `False`) first, then the lowered
name; when the directory flags differ, `a` comes first iff it is the
directory. -/
def pyKeyLe (a b : FileInfo) : Bool :=
  if (!a.is_directory) = (!b.is_directory) then
    charListLe (pyLower a.name) (pyLower b.name)
  else a.is_directory

/-- The ordering contract as the specification words it: directories
before files and, within each group, case-insensitive name ascending. -/
def dirThenNameLe (a b : FileInfo) : Prop :=
  (a.is_directory = true ∧ b.is_directory = false) ∨
  (a.is_directory = b.is_directory ∧ charListLe (pyLower a.name) (pyLower b.name) = true)

/-- One listing entry per `os.listdir` item; items whose `os.stat`
raises are skipped. -/
def mkFileInfo (env : FsEnv) (item rel fullpath : String) : FileInfo :=
  let is_dir := env.is_dir fullpath
  { name := item
    path := rel
    is_directory := is_dir
    size := if is_dir then 0 else env.stat_size fullpath
    modified := env.stat_mtime_iso fullpath
    created := env.stat_ctime_iso fullpath
    permissions := env.stat_perm fullpath
    ftype := getFileType item is_dir
    icon := getFileIcon item is_dir
    human_size := if is_dir then "--" else formatSize (env.stat_size fullpath) }

/-- The unsorted entry list built by `list_files`. -/
def rawEntries (env : FsEnv) (path full : String) : List FileInfo :=
  (env.listdir full).filterMap (fun item =>
    let item_path := osPathJoin full item
    let rel := if path = "" then item else osPathJoin path item
    if env.stat_ok item_path then some (mkFileInfo env item rel item_path) else none)

/-- `list_files`: mount check, existence check, build entries, then
`files.sort(key=lambda x: (not x['is_directory'], x['name'].lower()))`
(a stable sort, modelled by the stable `List.mergeSort`). -/
def listFiles (ust : USBState) (uenv : Env) (env : FsEnv) (fs : List String)
    (path : String) : Except String (List FileInfo) :=
  match getMountPoint ust uenv with
  | none => .error "No USB device mounted"
  | some mp =>
    let full := osPathJoin mp path
    if ¬ fs.contains full then .error ("Path does not exist: " ++ path)
    else .ok ((rawEntries env path full).mergeSort pyKeyLe)

/-- The candidate sequence of the upload collision loop: the sanitized
name itself, then `name_1.ext`, `name_2.ext`, … -/
def candName (orig : String) : Nat → String
  | 0 => orig
  | k + 1 => (splitext orig).1 ++ "_" ++ Nat.repr (k + 1) ++ (splitext orig).2

/-- The `while os.path.exists(file_path)` loop of `upload_file`,
fuelled (the fuel is chosen large enough to be unreachable). -/
def findFreeName (taken : String → Bool) (orig : String) : Nat → Nat → String
  | 0, k => candName orig k
  | fuel + 1, k =>
    if taken (candName orig k) then findFreeName taken orig fuel (k + 1)
    else candName orig k

/-- `self.max_file_size`. -/
def maxFileSize : Nat := 100 * 1024 * 1024

/-- `upload_file`: mount check, sanitize, size cap, collision-avoiding
name choice, then write.  The result is the final filename and the
updated set of existing paths (the presentational `file_info` fields
are metadata oracles, omitted here). -/
def uploadFile (ust : USBState) (uenv : Env) (env : FsEnv) (fs : List String)
    (origname : String) (size : Nat) : Except String (String × List String) :=
  match getMountPoint ust uenv with
  | none => .error "No USB device mounted"
  | some mp =>
    let filename := env.secure_filename origname
    if filename = "" then .error "Invalid filename"
    else if size > maxFileSize then .error "File too large (max 100MB)"
    else
      let final := findFreeName (fun c => fs.contains (osPathJoin mp c)) filename
        (fs.length + 1) 0
      .ok (final, osPathJoin mp final :: fs)

/-- `rename_file`: both paths are joined verbatim (no sanitization);
rename refuses to overwrite.  The `.ok` payload is the destination path
handed to `os.rename`. -/
def renameFile (ust : USBState) (uenv : Env) (fs : List String)
    (old_name new_name : String) : Except String String × List String :=
  match getMountPoint ust uenv with
  | none => (.error "No USB device mounted", fs)
  | some mp =>
    let old_path := osPathJoin mp old_name
    let new_path := osPathJoin mp new_name
    if ¬ fs.contains old_path then (.error ("File not found: " ++ old_name), fs)
    else if fs.contains new_path then (.error ("File already exists: " ++ new_name), fs)
    else (.ok new_path, new_path :: fs.erase old_path)

/-- `create_folder`: the folder name is sanitized, the parent path is
joined as given; existing targets are refused.  The `.ok` payload is
the created directory path. -/
def createFolder (ust : USBState) (uenv : Env) (env : FsEnv) (fs : List String)
    (folder_name parent_path : String) : Except String String × List String :=
  match getMountPoint ust uenv with
  | none => (.error "No USB device mounted", fs)
  | some mp =>
    let fname := env.secure_filename folder_name
    if fname = "" then (.error "Invalid folder name", fs)
    else
      let full := if parent_path ≠ "" then osPathJoin (osPathJoin mp parent_path) fname
                  else osPathJoin mp fname
      if fs.contains full then (.error ("Folder already exists: " ++ fname), fs)
      else (.ok full, full :: fs)

/-- `get_file_path`: the download-path resolution — a bare
`os.path.join(mount_point, filename)`. -/
def getFilePath (ust : USBState) (uenv : Env) (filename : String) :
    Except String String :=
  match getMountPoint ust uenv with
  | none => .error "No USB device mounted"
  | some mp => .ok (osPathJoin mp filename)

/-! ### Concrete fixtures for witnesses and counterexamples -/

/-- A benign environment: every path exists, every mount point
verifies, every shelled-out command succeeds. -/
def env0 : Env :=
  { path_exists := fun _ => true
    ismount := fun _ => true
    pid := 1
    mount_ret := 0
    mount_auto_ret := 0
    mount_auto_stderr := ""
    umount_ret := 0
    umount_raises := false
    rmdir_ok := fun _ => true
    removable := fun _ => false
    lsblk_raises := false
    lsblk_ret := 0
    lsblk_devs := []
    fallback_devices := []
    disk_usage := none }

/-- An environment in which both `mount` attempts fail. -/
def envMountFail : Env :=
  { env0 with mount_ret := 32, mount_auto_ret := 32,
              mount_auto_stderr := "unknown filesystem type" }

/-- The manager state before any mount. -/
def stEmpty : USBState := ⟨none, none, []⟩

/-- The mount directory for pid 1. -/
def mp1 : String := "/media/usb/usb_1"

/-- A state with one active session. -/
def stMounted : USBState := ⟨some mp1, some "/dev/sdb1", [mp1]⟩

/-- Disk-usage variants for the status claims. -/
def envDuZero : Env := { env0 with disk_usage := some (0, 0, 0) }

def envDuSome : Env := { env0 with disk_usage := some (1000, 250, 750) }

/-- An environment where `umount` reports a non-zero status and the
mount directory cannot be removed. -/
def envUmountWarn : Env := { env0 with umount_ret := 32, rmdir_ok := fun _ => false }

/-- A file-operations environment with identity sanitizer and inert
metadata oracles. -/
def fsenv0 : FsEnv :=
  { secure_filename := fun s => s
    listdir := fun _ => []
    is_dir := fun _ => false
    stat_ok := fun _ => true
    stat_size := fun _ => 0
    stat_mtime_iso := fun _ => ""
    stat_ctime_iso := fun _ => ""
    stat_perm := fun _ => "" }

/-- A stand-in for the external `werkzeug.secure_filename`: keep only
ASCII letters, digits, underscores and dots, and drop leading dots
(enough to make the sanitizer's effect observable in witnesses). -/
def toySanitize (s : String) : String :=
  ⟨(s.data.filter (fun c => c.isAlphanum ∨ c = '_' ∨ c = '.')).dropWhile (· = '.')⟩

/-- File-operations environment whose sanitizer visibly rewrites
names. -/
def fsenvSan : FsEnv := { fsenv0 with secure_filename := toySanitize }

/-- Existing paths for the rename witness. -/
def fsRen : List String := [osPathJoin mp1 "a.txt"]

/-- Listing fixture: a directory `A` and files `b.txt`, `a.txt`, in
unsorted on-disk order. -/
def fsenvList : FsEnv :=
  { fsenv0 with
    listdir := fun _ => ["b.txt", "A", "a.txt"]
    is_dir := fun p => p = "/media/usb/usb_1/A" }

/-- Existing paths for the listing witness (the listed directory). -/
def fsList : List String := [osPathJoin mp1 ""]

/-- The listing the model returns on the fixture. -/
def c9list : List FileInfo :=
  (rawEntries fsenvList "" (osPathJoin mp1 "")).mergeSort pyKeyLe

/-- The computed entry for `b.txt` on the listing fixture. -/
def c9b : FileInfo :=
  { name := "b.txt", path := "b.txt", is_directory := false, size := 0
    modified := "", created := "", permissions := "", ftype := "unknown"
    icon := "text", human_size := "0 B" }

/-- The computed entry for the directory `A` on the listing fixture. -/
def c9A : FileInfo :=
  { name := "A", path := "A", is_directory := true, size := 0
    modified := "", created := "", permissions := "", ftype := "folder"
    icon := "folder", human_size := "--" }

/-- The computed entry for `a.txt` on the listing fixture. -/
def c9a : FileInfo :=
  { name := "a.txt", path := "a.txt", is_directory := false, size := 0
    modified := "", created := "", permissions := "", ftype := "unknown"
    icon := "text", human_size := "0 B" }

/-- A removable disk whose name ends without digits. -/
def c8disk : LsblkDev := ⟨"/dev/sd", "disk", none, none, none, none⟩

/-- A partition whose name interleaves digits and letters. -/
def c8part : LsblkDev := ⟨"/dev/sd1a1", "part", none, none, none, none⟩

/-- Enumeration environment for the first-digit-truncation
counterexample (the kernel flags every disk removable here). -/
def env8 : Env := { env0 with removable := fun _ => true, lsblk_devs := [c8disk, c8part] }

/-- A canonically named removable disk. -/
def c8wdisk : LsblkDev := ⟨"/dev/sdb", "disk", none, none, none, none⟩

/-- Its first partition, canonically named. -/
def c8wpart : LsblkDev := ⟨"/dev/sdb1", "part", none, none, none, none⟩

/-- Enumeration environment with canonical device names. -/
def envC8 : Env := { env0 with removable := fun _ => true, lsblk_devs := [c8wdisk, c8wpart] }

/-! ### Shared helper lemmas -/

/-- The collision loop only ever returns one of the candidate names. -/
theorem findFreeName_is_cand (taken : String → Bool) (orig : String) :
    ∀ fuel k, ∃ j, k ≤ j ∧ findFreeName taken orig fuel k = candName orig j := by
  intro fuel
  induction fuel with
  | zero => intro k; exact ⟨k, le_rfl, rfl⟩
  | succ n ih =>
    intro k
    by_cases h : taken (candName orig k)
    · obtain ⟨j, hkj, hj⟩ := ih (k + 1)
      exact ⟨j, by omega, by simp [findFreeName, h, hj]⟩
    · exact ⟨k, le_rfl, by simp [findFreeName, h]⟩

/-- After `os.makedirs(p, exist_ok=True)` the directory is present. -/
theorem mem_makedirs (a : String) (l : List String) :
    a ∈ if a ∈ l then l else a :: l := by
  split
  · assumption
  · exact List.mem_cons_self a l

/-! ### Claim theorems -/

/-- C1 (counterexample): with a volume mounted at `/media/usb/usb_1`,
`get_file_path("../../outside.txt")` is not rejected: it returns the
joined path, whose normalization escapes the mount root. -/
theorem getFilePath_traversal_cx :
    getFilePath stMounted env0 "../../outside.txt" =
      .ok "/media/usb/usb_1/../../outside.txt" ∧
    isWithinB mp1 "/media/usb/usb_1/../../outside.txt" = false := by
  constructor
  · rfl
  · decide

/-- C1 (amended): `get_file_path` performs no traversal check at all:
whenever a verified mount root exists it returns
`os.path.join(mount_root, filename)` verbatim, for every relative
path, including ones whose `..` segments escape the mount root. -/
theorem getFilePath_joins_verbatim (st : USBState) (env : Env)
    (mp filename : String) (hmp : getMountPoint st env = some mp) :
    getFilePath st env filename = .ok (osPathJoin mp filename) := by
  unfold getFilePath
  rw [hmp]

/-- C1 (witness). -/
theorem getFilePath_joins_verbatim_witness :
    getFilePath stMounted env0 "docs/readme.txt" =
      .ok (osPathJoin mp1 "docs/readme.txt") :=
  getFilePath_joins_verbatim stMounted env0 mp1 "docs/readme.txt" rfl

/-- C2: mounting `B` while `A` is mounted tears `A` down first: the
event trace starts with the `umount` of `A`'s mount point, strictly
before the `mount` of `B` is attempted, and the final state holds at
most the new session (old device `A` never survives).  The state type
itself (a single optional `mount_point`/`mounted_device` pair) holds at
most one session. -/
theorem mount_supersedes (st : USBState) (env : Env) (dev mp : String)
    (hA : st.mount_point = some mp) (hdev : env.path_exists dev = true)
    (hnr : env.umount_raises = false) :
    ∃ rest,
      (mountDevice dev st env).2.2 =
        Event.umountCmd mp :: Event.rmdirTry mp ::
          Event.mkdirCmd (mountPointFor env) ::
          Event.mountCmd dev (mountPointFor env) :: rest ∧
      ((mountDevice dev st env).2.1.mounted_device = none ∨
        (mountDevice dev st env).2.1.mounted_device = some dev) ∧
      ((mountDevice dev st env).2.1.mount_point = none ∨
        (mountDevice dev st env).2.1.mount_point = some (mountPointFor env)) := by
  unfold mountDevice
  simp only [hdev, Bool.not_true, Bool.false_eq_true, if_false, ite_false, ite_true,
    Bool.true_eq_false, not_false_iff, not_true, if_true]
  rw [if_pos (by simp [hA])]
  unfold unmountDevice
  rw [hA]
  simp only [hnr, Bool.false_eq_true, if_false]
  by_cases h1 : env.mount_ret = 0 <;> by_cases h2 : env.ismount (mountPointFor env) = true <;>
    by_cases h3 : env.mount_auto_ret = 0 <;>
      simp [h1, h2, h3]

/-- C2 (witness). -/
theorem mount_supersedes_witness :
    ∃ rest,
      (mountDevice "/dev/sdc1" stMounted env0).2.2 =
        Event.umountCmd mp1 :: Event.rmdirTry mp1 ::
          Event.mkdirCmd (mountPointFor env0) ::
          Event.mountCmd "/dev/sdc1" (mountPointFor env0) :: rest ∧
      ((mountDevice "/dev/sdc1" stMounted env0).2.1.mounted_device = none ∨
        (mountDevice "/dev/sdc1" stMounted env0).2.1.mounted_device = some "/dev/sdc1") ∧
      ((mountDevice "/dev/sdc1" stMounted env0).2.1.mount_point = none ∨
        (mountDevice "/dev/sdc1" stMounted env0).2.1.mount_point =
          some (mountPointFor env0)) :=
  mount_supersedes stMounted env0 "/dev/sdc1" mp1 rfl rfl rfl

/-- C4 (counterexample): when both mount attempts fail on a fresh
state, `mount_device` raises with the tool diagnostic and leaves the
freshly created mount directory behind — it is not cleaned up, contrary
to the claim. -/
theorem mount_failure_dir_not_cleaned_cx :
    (mountDevice "/dev/sdb1" stEmpty envMountFail).1 =
      .error ("Failed to mount device: " ++ envMountFail.mount_auto_stderr) ∧
    mountPointFor envMountFail ∈ (mountDevice "/dev/sdb1" stEmpty envMountFail).2.1.dirs ∧
    mountPointFor envMountFail ∉ stEmpty.dirs := by
  refine ⟨rfl, ?_, by decide⟩
  decide

/-- C4 (amended): every failing `mount_device` call propagates the
error with the underlying diagnostic and installs no session — the
resulting state either has no mount point or is the untouched input
state — but the partially-created mount directory is NOT cleaned up:
whenever the directory was created during the call, it is still present
in the failure state. -/
theorem mount_failure_no_session (dev : String) (st : USBState) (env : Env)
    (e : String) (hnr : env.umount_raises = false)
    (h : (mountDevice dev st env).1 = .error e) :
    ((mountDevice dev st env).2.1.mount_point = none ∨
      (mountDevice dev st env).2.1 = st) ∧
    (Event.mkdirCmd (mountPointFor env) ∈ (mountDevice dev st env).2.2 →
      mountPointFor env ∈ (mountDevice dev st env).2.1.dirs) := by
  unfold mountDevice at h ⊢
  by_cases hd : env.path_exists dev = true
  · simp only [hd, Bool.not_true, Bool.false_eq_true, if_false, ite_false] at h ⊢
    cases hmp : st.mount_point with
    | none =>
      simp only [hmp, Option.isSome_none, Bool.false_eq_true, if_false, ite_false] at h ⊢
      by_cases h1 : env.mount_ret = 0 <;>
        by_cases h2 : env.ismount (mountPointFor env) = true <;>
          by_cases h3 : env.mount_auto_ret = 0 <;>
            (try simp_all [hmp]) <;> (try (exact mem_makedirs _ _))
    | some mp =>
      simp only [hmp, Option.isSome_some, if_true, ite_true] at h ⊢
      unfold unmountDevice at h ⊢
      rw [hmp] at h ⊢
      simp only [hnr, Bool.false_eq_true, if_false, ite_false] at h ⊢
      by_cases h1 : env.mount_ret = 0 <;>
        by_cases h2 : env.ismount (mountPointFor env) = true <;>
          by_cases h3 : env.mount_auto_ret = 0 <;>
            (try simp_all) <;> (try (exact mem_makedirs _ _))
  · simp only [hd] at h ⊢
    simp

/-- C4 (amended, witness). -/
theorem mount_failure_no_session_witness :
    (((mountDevice "/dev/sdb1" stEmpty envMountFail).2.1.mount_point = none ∨
       (mountDevice "/dev/sdb1" stEmpty envMountFail).2.1 = stEmpty) ∧
     (Event.mkdirCmd (mountPointFor envMountFail) ∈
        (mountDevice "/dev/sdb1" stEmpty envMountFail).2.2 →
       mountPointFor envMountFail ∈
         (mountDevice "/dev/sdb1" stEmpty envMountFail).2.1.dirs)) :=
  mount_failure_no_session "/dev/sdb1" stEmpty envMountFail
    ("Failed to mount device: " ++ envMountFail.mount_auto_stderr) rfl rfl

/-- C5: when a session exists and the `umount` subprocess returns (with
any status, zero or not — the result equation below does not depend on
`env.umount_ret`), the cleanup is never aborted: the mount directory is
removed best-effort (failures swallowed) and the session fields are
always cleared; the call reports success. -/
theorem unmount_always_clears (st : USBState) (env : Env) (mp : String)
    (hmp : st.mount_point = some mp) (hnr : env.umount_raises = false) :
    unmountDevice st env =
      (.ok true,
       { mount_point := none, mounted_device := none,
         dirs := if env.rmdir_ok mp then st.dirs.erase mp else st.dirs },
       [Event.umountCmd mp, Event.rmdirTry mp]) := by
  unfold unmountDevice
  rw [hmp]
  simp [hnr]

/-- C5 (witness): a failing `umount` status (`umount_ret = 32`) and a
failing `rmdir` still end in a cleared session and success. -/
theorem unmount_always_clears_witness :
    unmountDevice stMounted envUmountWarn =
      (.ok true,
       { mount_point := none, mounted_device := none,
         dirs := if envUmountWarn.rmdir_ok mp1 then stMounted.dirs.erase mp1
                 else stMounted.dirs },
       [Event.umountCmd mp1, Event.rmdirTry mp1]) :=
  unmount_always_clears stMounted envUmountWarn mp1 rfl rfl

/-- C6: unmounting with no session is a successful no-op, and any
successful unmount leaves a state in which a second unmount succeeds
again as a no-op — so two consecutive calls both return success. -/
theorem unmount_idempotent (st : USBState) (env env2 : Env) :
    (st.mount_point = none → unmountDevice st env = (.ok true, st, [])) ∧
    (∀ b st2 ev, unmountDevice st env = (.ok b, st2, ev) →
      b = true ∧ unmountDevice st2 env2 = (.ok true, st2, [])) := by
  constructor
  · intro h
    unfold unmountDevice
    rw [h]
  · intro b st2 ev h
    unfold unmountDevice at h
    cases hmp : st.mount_point with
    | none =>
      rw [hmp] at h
      simp only [Prod.mk.injEq, Except.ok.injEq] at h
      obtain ⟨h1, h2, _⟩ := h
      cases h1
      refine ⟨rfl, ?_⟩
      rw [← h2]
      unfold unmountDevice
      rw [hmp]
    | some mp =>
      rw [hmp] at h
      by_cases hr : env.umount_raises = true
      · simp [hr] at h
      · simp only [Bool.not_eq_true] at hr
        simp only [hr, Bool.false_eq_true, if_false, ite_false, Prod.mk.injEq] at h
        obtain ⟨h1, h2, _⟩ := h
        cases h1
        constructor
        · rfl
        · rw [← h2]
          unfold unmountDevice
          rfl

/-- C6 (witness): second call after a successful unmount of a mounted
state, and the no-op case. -/
theorem unmount_idempotent_witness :
    unmountDevice stEmpty env0 = (.ok true, stEmpty, []) ∧
    (true = true ∧ unmountDevice ⟨none, none, []⟩ env0 = (.ok true, ⟨none, none, []⟩, [])) :=
  ⟨(unmount_idempotent stEmpty env0 env0).1 rfl,
   (unmount_idempotent stMounted env0 env0).2 true ⟨none, none, []⟩
     [Event.umountCmd mp1, Event.rmdirTry mp1] rfl⟩

/-- C7: with a verified mount and a successful `shutil.disk_usage`,
`usage_percent` is `used/total*100` rounded to one decimal place; when
`total = 0` the `ZeroDivisionError` is caught by the surrounding
`except` and the returned `usage_percent` is exactly 0 — `get_status`
is a total function, so no failure propagates to the caller. -/
theorem status_usage_percent (st : USBState) (env : Env) (mp : String)
    (total used free : Nat) (hmp : st.mount_point = some mp)
    (him : env.ismount mp = true) (hdu : env.disk_usage = some (total, used, free)) :
    (total = 0 → (getStatus st env).usage_percent = 0) ∧
    (total ≠ 0 →
      (getStatus st env).usage_percent = round1 ((used : ℚ) / (total : ℚ) * 100)) := by
  unfold getStatus
  rw [hmp, hdu]
  simp only [him, not_true, Bool.not_true, Bool.false_eq_true, if_false, ite_false]
  constructor
  · intro h
    simp [h, defaultStatus]
  · intro h
    simp [h]

/-- C7 (witness). -/
theorem status_usage_percent_witness :
    (getStatus stMounted envDuZero).usage_percent = 0 ∧
    (getStatus stMounted envDuSome).usage_percent = round1 ((250 : ℚ) / 1000 * 100) :=
  ⟨(status_usage_percent stMounted envDuZero mp1 0 0 0 rfl rfl rfl).1 rfl,
   (status_usage_percent stMounted envDuSome mp1 1000 250 750 rfl rfl rfl).2
     (by decide)⟩

/-- C10: `rename_file` applies no sanitization to its destination: on
success the path handed to `os.rename` is exactly the mount root joined
with `new_name` verbatim (so separators or `..` segments in `new_name`
designate paths outside the source directory, possibly outside the
mount root — the witness exhibits an escaping destination), whereas
`create_folder` and `upload_file` first pass their names through the
sanitizer. -/
theorem rename_unsanitized (ust : USBState) (uenv : Env) (env : FsEnv)
    (fs : List String) (mp old_name new_name : String)
    (hmp : getMountPoint ust uenv = some mp) :
    (∀ r fs2, renameFile ust uenv fs old_name new_name = (.ok r, fs2) →
      r = osPathJoin mp new_name) ∧
    (∀ r fs2, createFolder ust uenv env fs new_name "" = (.ok r, fs2) →
      r = osPathJoin mp (env.secure_filename new_name)) ∧
    (∀ r fs2, uploadFile ust uenv env fs old_name 0 = .ok (r, fs2) →
      ∃ k, r = candName (env.secure_filename old_name) k) := by
  refine ⟨?_, ?_, ?_⟩
  · intro r fs2 h
    unfold renameFile at h
    simp only [hmp] at h
    split at h
    · simp at h
    · split at h
      · simp at h
      · simp only [Prod.mk.injEq, Except.ok.injEq] at h
        exact h.1.symm
  · intro r fs2 h
    unfold createFolder at h
    simp only [hmp] at h
    split at h
    · simp at h
    · rw [if_neg (show ¬ ("" : String) ≠ "" from fun hc => hc rfl)] at h
      split at h
      · simp at h
      · simp only [Prod.mk.injEq, Except.ok.injEq] at h
        exact h.1.symm
  · intro r fs2 h
    unfold uploadFile at h
    simp only [hmp] at h
    split at h
    · simp at h
    · split at h
      · simp at h
      · simp only [Except.ok.injEq, Prod.mk.injEq] at h
        obtain ⟨hr, -⟩ := h
        obtain ⟨j, -, hj⟩ := findFreeName_is_cand
          (fun c => fs.contains (osPathJoin mp c)) (env.secure_filename old_name)
          (fs.length + 1) 0
        exact ⟨j, by rw [← hr, hj]⟩

/-- C10 (witness): renaming to `"../evil.txt"` succeeds and targets a
path that escapes the mount root, while `create_folder` with the same
input goes through the sanitizer. -/
theorem rename_unsanitized_witness :
    ("/media/usb/usb_1/../evil.txt" = osPathJoin mp1 "../evil.txt" ∧
     isWithinB mp1 (osPathJoin mp1 "../evil.txt") = false) ∧
    "/media/usb/usb_1/evil.txt" = osPathJoin mp1 (fsenvSan.secure_filename "../evil.txt") :=
  ⟨⟨(rename_unsanitized stMounted env0 fsenvSan fsRen mp1 "a.txt" "../evil.txt" rfl).1
      "/media/usb/usb_1/../evil.txt" _ rfl, by decide⟩,
   (rename_unsanitized stMounted env0 fsenvSan [] mp1 "x" "../evil.txt" rfl).2.1
      "/media/usb/usb_1/evil.txt" _ rfl⟩

/-- `charListLe` is transitive. -/
theorem charListLe_trans :
    ∀ a b c : List Char, charListLe a b = true → charListLe b c = true →
      charListLe a c = true := by
  intro a
  induction a with
  | nil => intro b c _ _; rfl
  | cons x xs ih =>
    intro b c h1 h2
    cases b with
    | nil => simp [charListLe] at h1
    | cons y ys =>
      cases c with
      | nil => simp [charListLe] at h2
      | cons z zs =>
        unfold charListLe at h1 h2 ⊢
        by_cases hxy : x = y
        · subst hxy
          simp only [if_pos rfl] at h1
          by_cases hyz : x = z
          · subst hyz
            simp only [if_pos rfl] at h2 ⊢
            exact ih ys zs h1 h2
          · simp only [hyz, if_false, ite_false] at h2 ⊢
            exact h2
        · simp only [hxy, if_false, ite_false, decide_eq_true_eq] at h1
          by_cases hyz : y = z
          · subst hyz
            simp only [hxy, if_false, ite_false, decide_eq_true_eq]
            exact h1
          · simp only [hyz, if_false, ite_false, decide_eq_true_eq] at h2
            have hxz : x < z := lt_trans h1 h2
            simp only [ne_of_lt hxz, if_false, ite_false, decide_eq_true_eq]
            exact hxz

/-- `charListLe` is total. -/
theorem charListLe_total :
    ∀ a b : List Char, (charListLe a b || charListLe b a) = true := by
  intro a
  induction a with
  | nil => intro b; rfl
  | cons x xs ih =>
    intro b
    cases b with
    | nil => rfl
    | cons y ys =>
      unfold charListLe
      by_cases hxy : x = y
      · subst hxy
        simp only [if_pos rfl]
        exact ih ys
      · have hyx : ¬ y = x := fun h => hxy h.symm
        simp only [hxy, hyx, if_false, ite_false, Bool.or_eq_true, decide_eq_true_eq]
        rcases lt_trichotomy x y with h | h | h
        · exact Or.inl h
        · exact absurd h hxy
        · exact Or.inr h

/-- The merge-sort comparison is transitive. -/
theorem pyKeyLe_trans (a b c : FileInfo) (h1 : pyKeyLe a b = true)
    (h2 : pyKeyLe b c = true) : pyKeyLe a c = true := by
  unfold pyKeyLe at h1 h2 ⊢
  cases ha : a.is_directory <;> cases hb : b.is_directory <;> cases hc : c.is_directory <;>
    simp_all <;> exact charListLe_trans _ _ _ h1 h2

/-- The merge-sort comparison is total. -/
theorem pyKeyLe_total (a b : FileInfo) : (pyKeyLe a b || pyKeyLe b a) = true := by
  unfold pyKeyLe
  cases ha : a.is_directory <;> cases hb : b.is_directory <;>
    simp_all <;> exact (Bool.or_eq_true _ _).mp (charListLe_total _ _)

/-- A pair ordered by the code's comparison is ordered as the
specification words it. -/
theorem pyKeyLe_to_spec (a b : FileInfo) (h : pyKeyLe a b = true) :
    dirThenNameLe a b := by
  unfold pyKeyLe at h
  unfold dirThenNameLe
  cases ha : a.is_directory <;> cases hb : b.is_directory <;> simp_all

/-- C9: every successful `list_files` result is ordered directories
first and case-insensitively by name within each group, and is a
permutation of the entries built from the directory listing. -/
theorem list_files_sorted (ust : USBState) (uenv : Env) (env : FsEnv)
    (fs : List String) (path : String) (l : List FileInfo)
    (h : listFiles ust uenv env fs path = .ok l) :
    l.Pairwise dirThenNameLe ∧
    ∃ mp, getMountPoint ust uenv = some mp ∧
      l.Perm (rawEntries env path (osPathJoin mp path)) := by
  unfold listFiles at h
  cases hmp : getMountPoint ust uenv with
  | none => rw [hmp] at h; simp at h
  | some mp =>
    rw [hmp] at h
    simp only at h
    split at h
    · simp at h
    · simp only [Except.ok.injEq] at h
      subst h
      refine ⟨?_, mp, rfl, List.mergeSort_perm _ _⟩
      have hs : ((rawEntries env path (osPathJoin mp path)).mergeSort pyKeyLe).Pairwise
          (fun a b => pyKeyLe a b = true) :=
        List.sorted_mergeSort
          (fun a b c => pyKeyLe_trans a b c)
          (fun a b => pyKeyLe_total a b)
          (rawEntries env path (osPathJoin mp path))
      exact hs.imp (fun hab => pyKeyLe_to_spec _ _ hab)

/-- C9 (witness): on entries `{b.txt (file), A (dir), a.txt (file)}`
the result is ordered `A, a.txt, b.txt`. -/
theorem list_files_sorted_witness :
    c9list.Pairwise dirThenNameLe ∧
    c9list.map FileInfo.name = ["A", "a.txt", "b.txt"] :=
  ⟨(list_files_sorted stMounted env0 fsenvList fsList "" c9list rfl).1,
   by
     have hraw : rawEntries fsenvList "" (osPathJoin mp1 "") = [c9b, c9A, c9a] := rfl
     have h1 : pyKeyLe c9b c9A = false := rfl
     have h2 : pyKeyLe c9A c9a = true := rfl
     have h3 : pyKeyLe c9b c9a = false := rfl
     show ((rawEntries fsenvList "" (osPathJoin mp1 "")).mergeSort pyKeyLe).map
       FileInfo.name = _
     rw [hraw]
     simp [List.mergeSort, List.merge, h1, h2, h3]
     exact ⟨rfl, rfl, rfl⟩⟩

/-- Strings with equal character data are equal. -/
theorem strExt (s t : String) (h : s.data = t.data) : s = t := by
  cases s
  cases t
  simp_all

/-- `Nat.toDigitsCore` with enough fuel produces the reversed digit
characters of `Nat.digits`. -/
theorem toDigitsCore_eq_digits (fuel : Nat) :
    ∀ n ds, 0 < n → n ≤ fuel →
      Nat.toDigitsCore 10 fuel n ds =
        ((Nat.digits 10 n).map Nat.digitChar).reverse ++ ds := by
  induction fuel with
  | zero => intro n ds h1 h2; omega
  | succ f ih =>
    intro n ds h1 h2
    rw [Nat.digits_def' (by norm_num) h1]
    simp only [Nat.toDigitsCore]
    by_cases h : n / 10 = 0
    · simp [h]
    · have hn2 : 0 < n / 10 := Nat.pos_of_ne_zero h
      have hle : n / 10 ≤ f := by
        have := Nat.div_lt_self h1 (by norm_num : 1 < 10)
        omega
      simp only [h, if_false, ite_false]
      rw [ih (n / 10) (Nat.digitChar (n % 10) :: ds) hn2 hle]
      simp

/-- For positive `n`, `Nat.toDigits` is the reversed digit characters. -/
theorem toDigits_eq_digits (n : Nat) (h : 0 < n) :
    Nat.toDigits 10 n = ((Nat.digits 10 n).map Nat.digitChar).reverse := by
  have := toDigitsCore_eq_digits (n + 1) n [] h (by omega)
  simpa [Nat.toDigits] using this

/-- `Nat.digitChar` is injective below 10. -/
theorem digitChar_inj :
    ∀ a, a < 10 → ∀ b, b < 10 → Nat.digitChar a = Nat.digitChar b → a = b := by
  decide

/-- Mapping `digitChar` over digit lists (entries below 10) is
injective. -/
theorem map_digitChar_inj :
    ∀ l1 l2 : List Nat, (∀ x ∈ l1, x < 10) → (∀ x ∈ l2, x < 10) →
      l1.map Nat.digitChar = l2.map Nat.digitChar → l1 = l2 := by
  intro l1
  induction l1 with
  | nil =>
    intro l2 _ _ h
    cases l2 with
    | nil => rfl
    | cons y ys => simp at h
  | cons x xs ih =>
    intro l2 h1 h2 h
    cases l2 with
    | nil => simp at h
    | cons y ys =>
      simp only [List.map_cons, List.cons.injEq] at h
      have hx := digitChar_inj x (h1 x (by simp)) y (h2 y (by simp)) h.1
      rw [hx, ih ys (fun z hz => h1 z (List.mem_cons_of_mem _ hz))
        (fun z hz => h2 z (List.mem_cons_of_mem _ hz)) h.2]

/-- The decimal printer `Nat.repr` (used by Python f-strings in the
model) is injective. -/
theorem natRepr_inj (m n : Nat) (h : Nat.repr m = Nat.repr n) : m = n := by
  have hd : Nat.toDigits 10 m = Nat.toDigits 10 n := by
    have h2 := congrArg String.data h
    simpa [Nat.repr, List.asString] using h2
  have hzero : ∀ p : Nat, 0 < p → Nat.digits 10 p = [0] → False := by
    intro p hp hdig
    have := Nat.ofDigits_digits 10 p
    rw [hdig] at this
    simp [Nat.ofDigits] at this
    omega
  rcases Nat.eq_zero_or_pos m with hm | hm <;> rcases Nat.eq_zero_or_pos n with hn | hn
  · omega
  · exfalso
    rw [hm, toDigits_eq_digits n hn, show Nat.toDigits 10 0 = ['0'] from rfl] at hd
    have hmap : (Nat.digits 10 n).map Nat.digitChar = ['0'] := by
      simpa using (congrArg List.reverse hd).symm
    have hmap2 : (Nat.digits 10 n).map Nat.digitChar = ([0] : List Nat).map Nat.digitChar := by
      rw [hmap]; rfl
    have hdig := map_digitChar_inj _ _
      (fun x hx => Nat.digits_lt_base (by norm_num) hx) (by simp) hmap2
    exact hzero n hn hdig
  · exfalso
    rw [hn, toDigits_eq_digits m hm, show Nat.toDigits 10 0 = ['0'] from rfl] at hd
    have hmap : (Nat.digits 10 m).map Nat.digitChar = ['0'] := by
      simpa using congrArg List.reverse hd
    have hmap2 : (Nat.digits 10 m).map Nat.digitChar = ([0] : List Nat).map Nat.digitChar := by
      rw [hmap]; rfl
    have hdig := map_digitChar_inj _ _
      (fun x hx => Nat.digits_lt_base (by norm_num) hx) (by simp) hmap2
    exact hzero m hm hdig
  · rw [toDigits_eq_digits m hm, toDigits_eq_digits n hn] at hd
    have hrev := List.reverse_injective hd
    have hdig := map_digitChar_inj _ _
      (fun x hx => Nat.digits_lt_base (by norm_num) hx)
      (fun x hx => Nat.digits_lt_base (by norm_num) hx) hrev
    have h1 := Nat.ofDigits_digits 10 m
    have h2 := Nat.ofDigits_digits 10 n
    rw [← h1, ← h2, hdig]

/-- `os.path.splitext` splits the string: root and extension
concatenate back to the input. -/
theorem splitext_append (p : String) : (splitext p).1 ++ (splitext p).2 = p := by
  unfold splitext
  dsimp only
  split
  · split
    · apply strExt
      simp [String.data_append]
    · apply strExt
      simp [String.data_append]
  · apply strExt
    simp [String.data_append]

/-- On a nonempty string, the root part of `splitext` is nonempty. -/
theorem splitext_fst_ne (p : String) (hp : p ≠ "") : (splitext p).1 ≠ "" := by
  unfold splitext
  dsimp only
  split
  · split
    · rename_i hgt hany
      intro hc
      have hdata := congrArg String.data hc
      simp only at hdata
      rw [List.any_eq_true] at hany
      obtain ⟨x, hx, -⟩ := hany
      rcases List.take_eq_nil_iff.mp hdata with h0 | h0
      · rw [h0] at hx
        simp at hx
      · rw [h0] at hx
        simp at hx
    · exact hp
  · exact hp

/-- Distinct collision-loop candidates are distinct names (the suffix
changes the decimal counter, which prints injectively). -/
theorem candName_inj (orig : String) (ho : orig ≠ "") :
    Function.Injective (candName orig) := by
  have horig := splitext_append orig
  have hEq := congrArg (fun s => s.data.length) horig
  simp only [String.data_append, List.length_append] at hEq
  have hu : ("_" : String).data.length = 1 := rfl
  intro j k h
  cases j with
  | zero =>
    cases k with
    | zero => rfl
    | succ k =>
      exfalso
      have hlen := congrArg (fun s => s.data.length) h
      simp only [candName, String.data_append, List.length_append, hu] at hlen
      omega
  | succ j =>
    cases k with
    | zero =>
      exfalso
      have hlen := congrArg (fun s => s.data.length) h
      simp only [candName, String.data_append, List.length_append, hu] at hlen
      omega
    | succ k =>
      have hd := congrArg String.data h
      simp only [candName, String.data_append, List.append_assoc] at hd
      have h1 := List.append_cancel_left hd
      have h2 := List.append_cancel_left h1
      have h3 := List.append_cancel_right h2
      have h4 := natRepr_inj (j + 1) (k + 1) (strExt _ _ h3)
      omega

/-- All candidates of a nonempty sanitized name start with the same
character (the head of the splitext root). -/
theorem candName_head (orig : String) (ho : orig ≠ "") :
    ∃ c, ∀ k, ∃ rest, (candName orig k).data = c :: rest := by
  have hne := splitext_fst_ne orig ho
  have hod : (splitext orig).1.data ++ (splitext orig).2.data = orig.data := by
    have := congrArg String.data (splitext_append orig)
    simpa [String.data_append] using this
  rcases hh : (splitext orig).1.data with _ | ⟨c, cs⟩
  · exact absurd (strExt _ _ (by simp [hh])) hne
  · refine ⟨c, fun k => ?_⟩
    cases k with
    | zero =>
      refine ⟨cs ++ (splitext orig).2.data, ?_⟩
      have : (candName orig 0).data = orig.data := rfl
      rw [this, ← hod, hh]
      simp
    | succ k =>
      refine ⟨cs ++ (("_" : String).data ++ ((Nat.repr (k + 1)).data ++
        (splitext orig).2.data)), ?_⟩
      simp [candName, String.data_append, hh]

/-- `startswith('/')` is determined by the head character. -/
theorem strStartsSlash_of_head (s : String) (c : Char) (rest : List Char)
    (h : s.data = c :: rest) : strStartsSlash s = decide (c = '/') := by
  unfold strStartsSlash
  rw [h]

/-- Joining the mount root with distinct candidates gives distinct
paths. -/
theorem osPathJoin_cand_inj (mp orig : String) (ho : orig ≠ "") :
    Function.Injective (fun k => osPathJoin mp (candName orig k)) := by
  obtain ⟨c, hc⟩ := candName_head orig ho
  intro j k h
  apply candName_inj orig ho
  obtain ⟨r1, h1⟩ := hc j
  obtain ⟨r2, h2⟩ := hc k
  have hs1 := strStartsSlash_of_head _ c r1 h1
  have hs2 := strStartsSlash_of_head _ c r2 h2
  simp only [osPathJoin] at h
  by_cases hcs : c = '/'
  · have hb1 : strStartsSlash (candName orig j) = true := by rw [hs1]; simp [hcs]
    have hb2 : strStartsSlash (candName orig k) = true := by rw [hs2]; simp [hcs]
    simp only [hb1, hb2, if_true, ite_true] at h
    exact h
  · have hb1 : strStartsSlash (candName orig j) = false := by rw [hs1]; simp [hcs]
    have hb2 : strStartsSlash (candName orig k) = false := by rw [hs2]; simp [hcs]
    simp only [hb1, hb2, Bool.false_eq_true, if_false, ite_false] at h
    by_cases hmp2 : (mp = "" || strEndsSlash mp) = true
    · simp only [hmp2, if_true, ite_true] at h
      apply strExt
      have hdd := congrArg String.data h
      simp only [String.data_append] at hdd
      exact List.append_cancel_left hdd
    · simp only [hmp2, Bool.false_eq_true, if_false, ite_false] at h
      apply strExt
      have hdd := congrArg String.data h
      simp only [String.data_append, List.append_assoc] at hdd
      exact List.append_cancel_left (List.append_cancel_left hdd)

/-- The collision loop returns the first free candidate, provided some
candidate within the fuel window is free. -/
theorem findFreeName_spec (taken : String → Bool) (orig : String) :
    ∀ fuel k, (∃ j, k ≤ j ∧ j < k + fuel ∧ taken (candName orig j) = false) →
      ∃ j, k ≤ j ∧ taken (candName orig j) = false ∧
        findFreeName taken orig fuel k = candName orig j ∧
        ∀ i, k ≤ i → i < j → taken (candName orig i) = true := by
  intro fuel
  induction fuel with
  | zero =>
    intro k hex
    obtain ⟨j, h1, h2, -⟩ := hex
    omega
  | succ f ih =>
    intro k hex
    by_cases hk : taken (candName orig k) = true
    · obtain ⟨j0, hj1, hj2, hj3⟩ := hex
      have hne : k ≠ j0 := by
        intro he
        rw [← he] at hj3
        rw [hk] at hj3
        exact Bool.true_eq_false.mp hj3
      obtain ⟨j, ha, hb, hcEq, hd⟩ := ih (k + 1) ⟨j0, by omega, by omega, hj3⟩
      refine ⟨j, by omega, hb, ?_, ?_⟩
      · simp [findFreeName, hk, hcEq]
      · intro i h1 h2
        rcases Nat.eq_or_lt_of_le h1 with he | hl
        · rw [← he]
          exact hk
        · exact hd i (by omega) h2
    · simp only [Bool.not_eq_true] at hk
      exact ⟨k, le_rfl, hk, by simp [findFreeName, hk], fun i h1 h2 => by omega⟩

/-- Pigeonhole: among the first `|fs| + 1` candidates, some candidate
path is absent from the finite set of existing paths. -/
theorem exists_free_cand (mp orig : String) (fs : List String) (ho : orig ≠ "") :
    ∃ j, j ≤ fs.length ∧ osPathJoin mp (candName orig j) ∉ fs := by
  by_contra hall
  push_neg at hall
  have hinj := osPathJoin_cand_inj mp orig ho
  have hnod : ((List.range (fs.length + 1)).map
      (fun k => osPathJoin mp (candName orig k))).Nodup :=
    List.Nodup.map hinj (List.nodup_range _)
  have hsub : ((List.range (fs.length + 1)).map
      (fun k => osPathJoin mp (candName orig k))) ⊆ fs := by
    intro x hx
    simp only [List.mem_map, List.mem_range] at hx
    obtain ⟨k, hk, rfl⟩ := hx
    exact hall k (by omega)
  have hlen := (List.subperm_of_subset hnod hsub).length_le
  simp only [List.length_map, List.length_range] at hlen
  omega

/-- C3: upload never overwrites.  With a verified mount, a nonempty
sanitized name and an admissible size, the upload succeeds; the chosen
name is the first free candidate `name, name_1.ext, name_2.ext, …`
(every earlier candidate already exists), its path did not previously
exist, and the path set gains exactly that path.  Moreover an upload of
a fresh name keeps the name unchanged, and re-uploading the same
name immediately afterwards yields the `_1`-suffixed variant. -/
theorem upload_collision_policy (ust : USBState) (uenv : Env) (env : FsEnv)
    (fs : List String) (orig : String) (size : Nat) (mp : String)
    (hmp : getMountPoint ust uenv = some mp)
    (hf : env.secure_filename orig ≠ "")
    (hs : ¬ size > maxFileSize) :
    (∃ r fs2, uploadFile ust uenv env fs orig size = .ok (r, fs2) ∧
       osPathJoin mp r ∉ fs ∧ fs2 = osPathJoin mp r :: fs ∧
       ∃ j, r = candName (env.secure_filename orig) j ∧
         ∀ i, i < j → osPathJoin mp (candName (env.secure_filename orig) i) ∈ fs) ∧
    (osPathJoin mp (env.secure_filename orig) ∉ fs →
       uploadFile ust uenv env fs orig size =
         .ok (env.secure_filename orig, osPathJoin mp (env.secure_filename orig) :: fs) ∧
       (osPathJoin mp (candName (env.secure_filename orig) 1) ∉ fs →
          uploadFile ust uenv env (osPathJoin mp (env.secure_filename orig) :: fs) orig
              size =
            .ok (candName (env.secure_filename orig) 1,
              osPathJoin mp (candName (env.secure_filename orig) 1) ::
                osPathJoin mp (env.secure_filename orig) :: fs))) := by
  have hunfold : ∀ fsx : List String,
      uploadFile ust uenv env fsx orig size =
        .ok (findFreeName (fun c => fsx.contains (osPathJoin mp c))
              (env.secure_filename orig) (fsx.length + 1) 0,
            osPathJoin mp (findFreeName (fun c => fsx.contains (osPathJoin mp c))
              (env.secure_filename orig) (fsx.length + 1) 0) :: fsx) := by
    intro fsx
    unfold uploadFile
    simp only [hmp]
    rw [if_neg hf, if_neg hs]
  constructor
  · obtain ⟨j0, hj0, hfree⟩ := exists_free_cand mp (env.secure_filename orig) fs hf
    have hfree2 : (fun c => fs.contains (osPathJoin mp c))
        (candName (env.secure_filename orig) j0) = false := by
      simpa using hfree
    obtain ⟨j, hj_ge, hj_free, hj_eq, hj_taken⟩ := findFreeName_spec
      (fun c => fs.contains (osPathJoin mp c)) (env.secure_filename orig)
      (fs.length + 1) 0 ⟨j0, by omega, by omega, hfree2⟩
    refine ⟨_, _, hunfold fs, ?_, rfl, j, hj_eq, ?_⟩
    · rw [hj_eq]
      simpa using hj_free
    · intro i hi
      have := hj_taken i (by omega) hi
      simpa using this
  · intro h0
    have ht0 : (fun c => fs.contains (osPathJoin mp c))
        (candName (env.secure_filename orig) 0) = false := by
      simpa [candName] using h0
    have h1eq : findFreeName (fun c => fs.contains (osPathJoin mp c))
        (env.secure_filename orig) (fs.length + 1) 0 = env.secure_filename orig := by
      rw [findFreeName,
        show candName (env.secure_filename orig) 0 = env.secure_filename orig from rfl,
        if_neg (by simpa using h0)]
    constructor
    · rw [hunfold fs, h1eq]
    · intro h1
      have hjoin_ne : osPathJoin mp (candName (env.secure_filename orig) 1) ≠
          osPathJoin mp (env.secure_filename orig) := by
        intro hc
        have h10 : (1 : Nat) = 0 :=
          osPathJoin_cand_inj mp (env.secure_filename orig) hf hc
        omega
      have ht0b : (fun c =>
          (osPathJoin mp (env.secure_filename orig) :: fs).contains (osPathJoin mp c))
          (candName (env.secure_filename orig) 0) = true := by
        simp [candName]
      have ht1 : (fun c =>
          (osPathJoin mp (env.secure_filename orig) :: fs).contains (osPathJoin mp c))
          (candName (env.secure_filename orig) 1) = false := by
        simp [hjoin_ne, h1]
      rw [hunfold (osPathJoin mp (env.secure_filename orig) :: fs)]
      have hfind : findFreeName (fun c =>
          (osPathJoin mp (env.secure_filename orig) :: fs).contains (osPathJoin mp c))
          (env.secure_filename orig) ((osPathJoin mp (env.secure_filename orig) :: fs).length + 1)
          0 = candName (env.secure_filename orig) 1 := by
        simp only [List.length_cons]
        rw [show fs.length + 1 + 1 = fs.length + 2 from rfl]
        rw [show (fs.length + 2) = (fs.length + 1) + 1 from rfl]
        rw [findFreeName]
        rw [show candName (env.secure_filename orig) 0 = env.secure_filename orig from rfl]
        rw [if_pos (by simpa using ht0b)]
        cases hfl : fs.length + 1 with
        | zero => omega
        | succ m =>
          rw [findFreeName]
          rw [if_neg (by simpa using ht1)]
      rw [hfind]

/-- C3 (witness): uploading `report.txt` twice onto an empty volume
yields `report.txt` and then `report_1.txt`. -/
theorem upload_collision_policy_witness :
    uploadFile stMounted env0 fsenv0 [] "report.txt" 7 =
      .ok ("report.txt", ["/media/usb/usb_1/report.txt"]) ∧
    uploadFile stMounted env0 fsenv0 ["/media/usb/usb_1/report.txt"] "report.txt" 7 =
      .ok ("report_1.txt",
        ["/media/usb/usb_1/report_1.txt", "/media/usb/usb_1/report.txt"]) := by
  have h := (upload_collision_policy stMounted env0 fsenv0 [] "report.txt" 7 mp1 rfl
    (by decide) (by decide)).2 (by simp)
  exact ⟨h.1, h.2 (by simp)⟩

/-- `splitSlash` never returns the empty list. -/
theorem splitSlash_ne_nil : ∀ cs : List Char, splitSlash cs ≠ [] := by
  intro cs
  induction cs with
  | nil => simp [splitSlash]
  | cons c rest ih =>
    unfold splitSlash
    by_cases h : c = '/'
    · simp [h]
    · simp only [h, if_false, ite_false]
      cases hs : splitSlash rest with
      | nil => simp
      | cons h2 t2 => simp

/-- `splitSlash` produces one segment per slash plus one. -/
theorem splitSlash_length :
    ∀ cs : List Char, (splitSlash cs).length = cs.count '/' + 1 := by
  intro cs
  induction cs with
  | nil => simp [splitSlash]
  | cons c rest ih =>
    unfold splitSlash
    by_cases h : c = '/'
    · simp [h, ih, List.count_cons]
    · simp only [h, if_false, ite_false]
      cases hs : splitSlash rest with
      | nil => exact absurd hs (splitSlash_ne_nil rest)
      | cons h2 t2 =>
        rw [hs] at ih
        simp only [List.length_cons] at ih ⊢
        simp [List.count_cons, h, ih]

/-- The default value of `getLastD` is irrelevant on nonempty lists. -/
theorem getLastD_default_irrel (l : List (List Char)) (hl : l ≠ []) (a b : List Char) :
    l.getLastD a = l.getLastD b := by
  cases l with
  | nil => exact absurd rfl hl
  | cons x t => simp only [List.getLastD_cons]

/-- A slash-free string splits into a single segment. -/
theorem splitSlash_no_slash (ys : List Char) (hys : ∀ c ∈ ys, c ≠ '/') :
    splitSlash ys = [ys] := by
  induction ys with
  | nil => rfl
  | cons c rest ih =>
    unfold splitSlash
    have hc : c ≠ '/' := hys c (by simp)
    simp only [hc, if_false, ite_false]
    rw [ih (fun x hx => hys x (by simp [hx]))]

/-- Appending a slash-free suffix extends the last segment of
`str.split('/')`. -/
theorem splitSlash_getLastD_append (ys : List Char) (hys : ∀ c ∈ ys, c ≠ '/') :
    ∀ cs : List Char,
      (splitSlash (cs ++ ys)).getLastD [] = (splitSlash cs).getLastD [] ++ ys := by
  intro cs
  induction cs with
  | nil =>
    simp only [List.nil_append]
    rw [splitSlash_no_slash ys hys]
    rfl
  | cons c rest ih =>
    by_cases h : c = '/'
    · show (splitSlash (c :: (rest ++ ys))).getLastD [] = _
      unfold splitSlash
      simp only [h, if_true, ite_true]
      rw [List.getLastD_cons, List.getLastD_cons]
      rw [getLastD_default_irrel _ (splitSlash_ne_nil (rest ++ ys)) [] [],
        getLastD_default_irrel (splitSlash rest) (splitSlash_ne_nil rest) [] []]
      exact ih
    · show (splitSlash (c :: (rest ++ ys))).getLastD [] = _
      unfold splitSlash
      simp only [h, if_false, ite_false]
      cases hX : splitSlash (rest ++ ys) with
      | nil => exact absurd hX (splitSlash_ne_nil _)
      | cons hx tx =>
        cases hS : splitSlash rest with
        | nil => exact absurd hS (splitSlash_ne_nil _)
        | cons hs ts =>
          have hlenX := splitSlash_length (rest ++ ys)
          have hlenS := splitSlash_length rest
          rw [hX] at hlenX
          rw [hS] at hlenS
          have hcount : (rest ++ ys).count '/' = rest.count '/' := by
            rw [List.count_append]
            have : ys.count '/' = 0 := by
              rw [List.count_eq_zero]
              intro hmem
              exact hys '/' hmem rfl
            omega
          rw [hX, hS] at ih
          simp only [List.getLastD_cons] at ih ⊢
          cases tx with
          | nil =>
            cases ts with
            | nil =>
              simp at ih
              simp [ih]
            | cons a b =>
              exfalso
              simp only [List.length_cons, List.length_nil] at hlenX hlenS
              omega
          | cons a b =>
            cases ts with
            | nil =>
              exfalso
              simp only [List.length_cons, List.length_nil] at hlenX hlenS
              omega
            | cons a2 b2 =>
              rw [getLastD_default_irrel (a :: b) (by simp) (c :: hx) hx,
                getLastD_default_irrel (a2 :: b2) (by simp) (c :: hs) hs]
              exact ih

/-- `takeWhile` passes over a prefix whose members all satisfy the
predicate. -/
theorem takeWhile_append_all (p : Char → Bool) (xs ys : List Char)
    (hxs : ∀ c ∈ xs, p c = true) :
    (xs ++ ys).takeWhile p = xs ++ ys.takeWhile p := by
  induction xs with
  | nil => simp
  | cons c rest ih =>
    simp only [List.cons_append, List.takeWhile_cons, hxs c (by simp), if_true, ite_true]
    rw [ih (fun x hx => hxs x (by simp [hx]))]

/-- `takeWhile (not digit)` of an all-digit list is empty. -/
theorem takeWhile_nondigit_of_digits (ys : List Char)
    (hys : ∀ c ∈ ys, c.isDigit = true) :
    ys.takeWhile (fun c => !c.isDigit) = [] := by
  cases ys with
  | nil => rfl
  | cons c rest =>
    simp [List.takeWhile_cons, hys c (by simp)]

/-- `dropWhile` consumes a prefix whose members all satisfy the
predicate. -/
theorem dropWhile_append_all (p : Char → Bool) (xs ys : List Char)
    (hxs : ∀ c ∈ xs, p c = true) :
    (xs ++ ys).dropWhile p = ys.dropWhile p := by
  induction xs with
  | nil => simp
  | cons c rest ih =>
    simp only [List.cons_append, List.dropWhile_cons, hxs c (by simp), if_true, ite_true]
    exact ih (fun x hx => hxs x (by simp [hx]))

/-- C8 (counterexample): the code derives the parent disk by truncating
the basename at its FIRST digit, not by stripping trailing digits.
With a removable disk `/dev/sd` and a partition `/dev/sd1a1`, the
partition is reported (truncation yields `sd`), yet its spec-side
parent id — trailing digits stripped — is `/dev/sd1a`, which is not in
the removable-disk set. -/
theorem usb_partition_parent_cx :
    getAvailableDevices env8 = [mkDeviceInfo c8part] ∧
    stripTrailingDigits c8part.name ∉ usbDisksOf env8 env8.lsblk_devs := by
  constructor
  · rfl
  · decide

/-- C8 (amended): when every lsblk device name has the canonical
`/dev/<stem><digits>` shape (stem nonempty, digit- and slash-free),
every entry reported by the primary enumeration path is a partition
whose parent-disk identifier — derived by stripping trailing numeric
characters from its device name — is a member of the removable-disk
name set. -/
theorem usb_partition_parent_canonical (env : Env)
    (hraise : env.lsblk_raises = false) (hret : env.lsblk_ret = 0)
    (hnames : ∀ dev ∈ env.lsblk_devs, canonicalDevName dev.name) :
    ∀ info ∈ getAvailableDevices env,
      info.dtype = "part" ∧
      stripTrailingDigits info.name ∈ usbDisksOf env env.lsblk_devs := by
  intro info hinfo
  unfold getAvailableDevices at hinfo
  simp only [hraise, Bool.false_eq_true, if_false, ite_false] at hinfo
  rw [if_neg (by simp [hret])] at hinfo
  simp only [List.mem_map] at hinfo
  obtain ⟨d, hdmem, rfl⟩ := hinfo
  rw [List.mem_filter] at hdmem
  obtain ⟨hd_mem, hd_pred⟩ := hdmem
  rw [Bool.and_eq_true] at hd_pred
  obtain ⟨hd_type, hd_part⟩ := hd_pred
  have hd_type2 : d.dtype = "part" := by simpa using hd_type
  obtain ⟨w, dd, hname, hw_ne, hw_chars, hd_chars⟩ := hnames d hd_mem
  refine ⟨hd_type2, ?_⟩
  have hnoslash : ∀ c ∈ w ++ dd, c ≠ '/' := by
    intro c hc
    rcases List.mem_append.mp hc with hcw | hcd
    · exact (hw_chars c hcw).2
    · intro he
      have hd2 := hd_chars c hcd
      rw [he] at hd2
      exact absurd hd2 (by decide)
  have hbase : (splitSlash d.name.data).getLastD [] = w ++ dd := by
    rw [hname, List.append_assoc,
      splitSlash_getLastD_append (w ++ dd) hnoslash (("/dev/" : String).data)]
    have h0 : (splitSlash (("/dev/" : String).data)).getLastD [] = [] := by decide
    rw [h0]
    rfl
  have hcontains : d.name.data.contains '/' = true := by
    rw [hname]
    have h1 : '/' ∈ ("/dev/" : String).data ++ w ++ dd :=
      List.mem_append_left _ (List.mem_append_left _ (by decide))
    simpa using h1
  have htrunc : ((splitSlash d.name.data).getLastD []).takeWhile
      (fun c => !c.isDigit) = w := by
    rw [hbase,
      takeWhile_append_all _ w dd (fun c hc => by simp [(hw_chars c hc).1]),
      takeWhile_nondigit_of_digits dd hd_chars]
    simp
  have hmem_set : (("/dev/" : String) ++ (⟨w⟩ : String)) ∈
      usbDisksOf env env.lsblk_devs := by
    have hp := hd_part
    unfold isUsbPartition at hp
    simp only [hcontains, if_true, ite_true] at hp
    rw [htrunc] at hp
    simpa using hp
  have hstrip : stripTrailingDigits d.name = ("/dev/" : String) ++ (⟨w⟩ : String) := by
    apply strExt
    unfold stripTrailingDigits
    rw [hname]
    obtain ⟨c0, rest0, hwrev⟩ : ∃ c0 rest0, w.reverse = c0 :: rest0 := by
      cases hwr : w.reverse with
      | nil => exact absurd (List.reverse_eq_nil_iff.mp hwr) hw_ne
      | cons a b => exact ⟨a, b, rfl⟩
    have hc0 : c0.isDigit = false :=
      (hw_chars c0 (by rw [← List.mem_reverse, hwrev]; simp)).1
    simp only [List.append_assoc, List.reverse_append]
    rw [dropWhile_append_all _ dd.reverse _
      (fun c hc => hd_chars c (List.mem_reverse.mp hc))]
    rw [hwrev]
    simp only [List.cons_append, List.dropWhile_cons, hc0, Bool.false_eq_true,
      if_false, ite_false]
    rw [show (c0 :: (rest0 ++ (("/dev/" : String).data).reverse)) =
      ((c0 :: rest0) ++ (("/dev/" : String).data).reverse) from rfl]
    rw [List.reverse_append, List.reverse_reverse, ← hwrev, List.reverse_reverse]
    have : (("/dev/" : String) ++ (⟨w⟩ : String)).data = ("/dev/" : String).data ++ w := by
      simp [String.data_append]
    rw [this]
  show stripTrailingDigits d.name ∈ usbDisksOf env env.lsblk_devs
  rw [hstrip]
  exact hmem_set

/-- C8 (amended, witness): canonical names `/dev/sdb`, `/dev/sdb1`. -/
theorem usb_partition_parent_canonical_witness :
    (mkDeviceInfo c8wpart).dtype = "part" ∧
    stripTrailingDigits (mkDeviceInfo c8wpart).name ∈
      usbDisksOf envC8 envC8.lsblk_devs :=
  usb_partition_parent_canonical envC8 rfl rfl
    (by
      intro dev hdev
      have hdevs : envC8.lsblk_devs = [c8wdisk, c8wpart] := rfl
      rw [hdevs] at hdev
      simp only [List.mem_cons, List.mem_singleton] at hdev
      rcases hdev with h | h | h
      · exact h ▸ ⟨['s', 'd', 'b'], [], by decide, by decide, by decide, by decide⟩
      · exact h ▸ ⟨['s', 'd', 'b'], ['1'], by decide, by decide, by decide, by decide⟩
      · exact absurd h (by simp))
    (mkDeviceInfo c8wpart) (by decide)
